import Mathlib

/-!
Shallow embedding of the `table` storage engine (src/untyped.rs, src/iter.rs).

The engine keeps an in-memory header (`Vec<u64>` of record byte lengths), a
cached byte total `len`, and a data file of concatenated record bytes.  Files
are modelled as in-memory byte lists; deterministic I/O (seek/set_len/write)
always succeeds, while `read_exact` fails (an I/O error) exactly when fewer
bytes are available than requested.  The serde/msgpack codec is an external
collaborator and is modelled as a parameter: a pair of fallible encode/decode
functions.  Rust panics (index out of bounds, integer underflow in debug
builds) are modelled by an outer `Option`: `none` is a panic.
-/

namespace TableSpec

/-- The codec boundary: `encode(value) -> bytes | EncodeError`,
`decode(bytes) -> value | DecodeError`.  Bytes are natural numbers. -/
structure Codec (V : Type) where
  encode : V → Option (List Nat)
  decode : List Nat → Option V

/-- The error taxonomy of src/error.rs: `Io`, `MsgPackEnc`, `MsgPackDec`. -/
inductive Err where
  | io : Err
  | msgPackEnc : Err
  | msgPackDec : Err
deriving DecidableEq

/-- The `Table` struct of src/untyped.rs: `header: Vec<u64>`, the data file's
contents (the `data_file` handle), and the cached byte total `len: u64`.
The header file handle is irrelevant to the claims and omitted. -/
structure Table where
  header : List Nat
  len : Nat
  file : List Nat
deriving DecidableEq

/-- `File::set_len(n)`: truncate to `n` bytes, or zero-extend up to `n`. -/
def setLen (file : List Nat) (n : Nat) : List Nat :=
  file.take n ++ List.replicate (n - file.length) 0

/-- Seek to `offset` and `read_exact` a buffer of `len` bytes: `none` models
the `UnexpectedEof` I/O error when fewer than `len` bytes are available. -/
def readExact (file : List Nat) (offset len : Nat) : Option (List Nat) :=
  if offset + len ≤ file.length then some ((file.drop offset).take len) else none

/-- `Table::open` (src/untyped.rs:33-60), after the two files are opened.
`decodeHeader` is `serde_msgpack::from_read` on the header file, `idxExisted`
is whether `<name>.idx` existed, `idxContents`/`datContents` are the files'
bytes.  If the index file existed its contents are decoded as the header (a
decode failure fails the open); otherwise the header starts empty.  `len` is
set to the sum of the loaded header (line 53). -/
def openTable (decodeHeader : List Nat → Option (List Nat))
    (idxExisted : Bool) (idxContents datContents : List Nat) :
    Except Err Table :=
  if idxExisted then
    match decodeHeader idxContents with
    | none => Except.error Err.msgPackDec
    | some header => Except.ok { header := header, len := header.sum, file := datContents }
  else
    Except.ok { header := [], len := List.sum [], file := datContents }

/-- `Table::len` (src/untyped.rs:63-65): the number of records,
`self.header.len()`.  Named `count` because `len` is the struct field. -/
def Table.count (t : Table) : Nat :=
  t.header.length

/-- `Table::is_empty` (src/untyped.rs:70-72): `self.len() == 0`. -/
def Table.isEmptyTable (t : Table) : Bool :=
  t.count == 0

/-- `Table::get` (src/untyped.rs:78-98).  Returns `Ok(None)` when `pos`
exceeds the bounds; otherwise sums all header entries before `pos`, reads
`header[pos]` bytes from that offset and decodes them. -/
def Table.get {V : Type} (t : Table) (c : Codec V) (pos : Nat) : Except Err (Option V) :=
  if t.header.length ≤ pos then
    Except.ok none
  else
    match readExact t.file ((t.header.take pos).sum) (t.header.getD pos 0) with
    | none => Except.error Err.io
    | some data =>
      match c.decode data with
      | none => Except.error Err.msgPackDec
      | some v => Except.ok (some v)

/-- `Table::get_at` (src/untyped.rs:100-111): seek to `offset`, read exactly
`len` bytes, decode.  No bounds check against the header. -/
def Table.getAt {V : Type} (t : Table) (c : Codec V) (offset len : Nat) : Except Err V :=
  match readExact t.file offset len with
  | none => Except.error Err.io
  | some data =>
    match c.decode data with
    | none => Except.error Err.msgPackDec
    | some v => Except.ok v

/-- `Table::push` (src/untyped.rs:115-137).  Encodes the value (failure
returns the encode error before any mutation), appends the encoded length to
the header, adds it to the cached `len`, sets the data file's length to the
new `len`, seeks to `End(-len)` and writes the serialized bytes there. -/
def Table.push {V : Type} (t : Table) (c : Codec V) (v : V) : Except Err Unit × Table :=
  match c.encode v with
  | none => (Except.error Err.msgPackEnc, t)
  | some serialized =>
    let len := serialized.length
    let header := t.header ++ [len]
    let newLen := t.len + len
    let grown := setLen t.file newLen
    let file := grown.take (newLen - len) ++ serialized
    (Except.ok (), { header := header, len := newLen, file := file })

/-- `Table::pop` (src/untyped.rs:144-174).  If the header is empty, `Ok(None)`.
Otherwise pops the last header entry `len`, then computes
`start = self.len - self.header[self.header.len() - 1]` on the ALREADY-POPPED
header (line 159): on a now-empty header the index underflows and the code
panics (`none` here); a `u64` underflow of the subtraction also panics.  It
then reads `len` bytes at `start` (an I/O failure leaves the file untouched
but the header already popped), truncates the file to `start`, and decodes.
The cached `t.len` is never decremented. -/
def Table.pop {V : Type} (t : Table) (c : Codec V) : Option (Except Err (Option V) × Table) :=
  if t.header.isEmpty then
    some (Except.ok none, t)
  else
    let len := t.header.getLastD 0
    let header := t.header.dropLast
    match header.get? (header.length - 1) with
    | none => none
    | some prevLen =>
      if t.len < prevLen then
        none
      else
        let start := t.len - prevLen
        match readExact t.file start len with
        | none => some (Except.error Err.io, { t with header := header })
        | some data =>
          let file := setLen t.file start
          let t' : Table := { t with header := header, file := file }
          match c.decode data with
          | none => some (Except.error Err.msgPackDec, t')
          | some v => some (Except.ok (some v), t')

/-- The `TableIterator` state of src/iter.rs: position and running offset
(the table reference is passed explicitly). -/
structure TableIterator where
  pos : Nat
  offset : Nat
deriving DecidableEq

/-- `TableIterator::next` (src/iter.rs:21-33): looks up the length at the
current position (sequence ends when the header is exhausted), fetches the
record via `get_at(offset, len)`, then advances offset and position. -/
def iterNext {V : Type} (c : Codec V) (t : Table) (it : TableIterator) :
    Option (Except Err V × TableIterator) :=
  match t.header.get? it.pos with
  | none => none
  | some len =>
    some (t.getAt c it.offset len, { pos := it.pos + 1, offset := it.offset + len })

/-- Drive the iterator for at most `fuel` steps, collecting the yielded
results in order. -/
def runIter {V : Type} (c : Codec V) (t : Table) : Nat → TableIterator → List (Except Err V)
  | 0, _ => []
  | Nat.succ fuel, it =>
    match iterNext c t it with
    | none => []
    | some (r, it') => r :: runIter c t fuel it'

/-- A full scan with `Table::iter` (src/untyped.rs:194-201): start at
position 0 / offset 0 and run to exhaustion (the iterator yields exactly
`header.length` items, so that much fuel drives it to its end). -/
def iterAll {V : Type} (c : Codec V) (t : Table) : List (Except Err V) :=
  runIter c t t.header.length { pos := 0, offset := 0 }

/-- A concrete codec instance used for witnesses: a value `v : Nat` encodes
to `v + 1` copies of the byte `v`; decoding reads the first byte. -/
def natCodec : Codec Nat where
  encode v := some (List.replicate (v + 1) v)
  decode bs := bs.head?

/-- A concrete codec whose encoder always fails, for exercising the
encode-error path. -/
def failCodec : Codec Nat where
  encode _ := none
  decode bs := bs.head?

/-- In-bounds lookup: `get?` returns the `getD` value. -/
theorem get?_eq_getD_of_lt : ∀ (l : List Nat) (n : Nat), n < l.length →
    l.get? n = some (l.getD n 0)
  | _ :: _, 0, _ => rfl
  | _ :: l, n + 1, h => get?_eq_getD_of_lt l n (Nat.lt_of_succ_lt_succ h)

/-- Taking one more element adds the element at `n` to the prefix sum. -/
theorem take_succ_sum : ∀ (l : List Nat) (n : Nat), n < l.length →
    (l.take (n + 1)).sum = (l.take n).sum + l.getD n 0
  | a :: l, 0, _ => by simp
  | a :: l, n + 1, h => by
    have ih := take_succ_sum l n (Nat.lt_of_succ_lt_succ h)
    simp only [List.take, List.sum_cons, ih]
    have : (a :: l).getD (n + 1) 0 = l.getD n 0 := rfl
    rw [this]
    omega

/-- Indexing into `range'` mapped through `f` picks out `f` of the index. -/
theorem getD_map_range' {α : Type} (f : Nat → α) (d : α) :
    ∀ (n s i : Nat), i < n → ((List.range' s n).map f).getD i d = f (s + i)
  | n + 1, s, 0, _ => by simp [List.range']
  | n + 1, s, i + 1, h => by
    have ih := getD_map_range' f d n (s + 1) i (by omega)
    simp only [List.range', List.map_cons]
    have hco : ((f s :: (List.range' (s + 1) n).map f).getD (i + 1) d) =
        ((List.range' (s + 1) n).map f).getD i d := rfl
    rw [hco, ih]
    congr 1
    omega

/-- An in-range `get` is exactly `get_at` at the prefix-sum offset with the
indexed length, with its result wrapped in `Some`. -/
theorem get_eq_map_getAt {V : Type} (c : Codec V) (t : Table) (pos : Nat)
    (h : pos < t.header.length) :
    t.get c pos =
      Except.map some (t.getAt c ((t.header.take pos).sum) (t.header.getD pos 0)) := by
  have hnot : ¬ t.header.length ≤ pos := by omega
  cases hr : readExact t.file ((t.header.take pos).sum) (t.header.getD pos 0) with
  | none => simp only [Table.get, Table.getAt, if_neg hnot, hr, Except.map]
  | some data =>
    cases hd : c.decode data with
    | none => simp only [Table.get, Table.getAt, if_neg hnot, hr, hd, Except.map]
    | some v => simp only [Table.get, Table.getAt, if_neg hnot, hr, hd, Except.map]

/-- Running the iterator from position `pos` at the correct running offset
yields exactly the `get_at` fetches of positions `pos, pos+1, …`. -/
theorem runIter_eq {V : Type} (c : Codec V) (t : Table) :
    ∀ (k pos : Nat), pos + k = t.header.length →
      runIter c t k { pos := pos, offset := (t.header.take pos).sum } =
        (List.range' pos k).map
          (fun i => t.getAt c ((t.header.take i).sum) (t.header.getD i 0)) := by
  intro k
  induction k with
  | zero => intro pos _; rfl
  | succ k ih =>
    intro pos h
    have hpos : pos < t.header.length := by omega
    have hget : t.header.get? pos = some (t.header.getD pos 0) :=
      get?_eq_getD_of_lt _ _ hpos
    have hoff : (t.header.take pos).sum + t.header.getD pos 0 =
        (t.header.take (pos + 1)).sum := (take_succ_sum _ _ hpos).symm
    have ihp := ih (pos + 1) (by omega)
    simp only [runIter, iterNext, hget, List.range']
    rw [hoff, ihp]
    rfl

/-- C1: the claim says push(v) then pop() returns Some(v) for EVERY table
state, but on an empty table the pair panics: after the push the header holds
one entry, and pop evaluates `self.header[self.header.len() - 1]` on the
emptied header (untyped.rs:159), an out-of-bounds index.  Here: pushing 5
(six encoded bytes) onto a fresh table and popping evaluates to `none`
(panic) instead of `Some 5`. -/
theorem c1_push_then_pop_panics_on_empty_table :
    ((Table.mk [] 0 []).push natCodec 5).2.pop natCodec = none := rfl

/-- C2: the claim says pop reads and truncates at the removed record's
offset, total length minus the REMOVED record's length.  The code instead
uses the new last record's length (untyped.rs:159).  On header `[3, 1]`,
total 4, file `[2, 2, 2, 0]`: the claim demands offset 4 - 1 = 3 (reading
byte `0`, truncating to 3 bytes); the code computes 4 - 3 = 1, reads the
byte `2` from the middle of the first record, truncates the file to one
byte, and returns the wrongly decoded value 2. -/
theorem c2_pop_reads_and_truncates_at_wrong_offset :
    (Table.mk [3, 1] 4 [2, 2, 2, 0]).pop natCodec =
      some (Except.ok (some 2), Table.mk [3] 4 [2]) := rfl

/-- C3: on any table with exactly one record, pop panics: after popping the
sole header entry the header is empty, and
`self.header[self.header.len() - 1]` (untyped.rs:159) indexes an empty
vector with an underflowed index.  `none` models the panic. -/
theorem c3_pop_single_record_panics {V : Type} (c : Codec V) (t : Table)
    (h : t.header.length = 1) : t.pop c = none := by
  obtain ⟨header, len, file⟩ := t
  obtain ⟨a, ha⟩ := List.length_eq_one.mp h
  subst ha
  rfl

/-- C3 witness: popping a concrete one-record table panics. -/
theorem c3_pop_single_record_panics_witness :
    (Table.mk [7] 7 [1, 1, 1, 1, 1, 1, 1]).pop natCodec = none :=
  c3_pop_single_record_panics natCodec (Table.mk [7] 7 [1, 1, 1, 1, 1, 1, 1]) rfl

/-- C4: the claim says the data file's byte size always equals the sum of
the index after successful pushes/pops.  After pushing a 3-byte record and a
1-byte record onto a fresh table and popping once (successfully), the record
count is 1 as claimed, but the file holds 1 byte while the index sums to 3:
pop truncated at the wrong offset (untyped.rs:159). -/
theorem c4_data_file_size_diverges_from_index_sum :
    ∃ t : Table,
      (((Table.mk [] 0 []).push natCodec 2).2.push natCodec 0).2.pop natCodec =
        some (Except.ok (some 2), t) ∧
      t.count = 1 ∧ t.file.length ≠ t.header.sum :=
  ⟨Table.mk [3] 4 [2], rfl, rfl, by decide⟩

/-- C5: the claim says the cached `len` equals the sum of the index after
every successful mutation, but pop never decrements `len`
(untyped.rs:144-174).  On header `[2, 2]`, total 4: pop succeeds (equal
record lengths make the offset right), yet the cached `len` stays 4 while
the index sums to 2. -/
theorem c5_cached_len_stale_after_pop :
    ∃ t : Table,
      (Table.mk [2, 2] 4 [9, 9, 8, 8]).pop natCodec =
        some (Except.ok (some 8), t) ∧
      t.len ≠ t.header.sum :=
  ⟨Table.mk [2] 4 [9, 9], rfl, by decide⟩

/-- C6: a full scan with the iterator yields exactly `n` results, and the
result at each position `i < n` is exactly `get(i)`'s result (iterator items
carry the bare value where `get` wraps it in `Some`). -/
theorem c6_iter_matches_get {V : Type} (c : Codec V) (t : Table) :
    (iterAll c t).length = t.header.length ∧
    ∀ i, i < t.header.length →
      t.get c i = Except.map some ((iterAll c t).getD i (Except.error Err.io)) := by
  have hrun := runIter_eq c t t.header.length 0 (by omega)
  have hall : iterAll c t =
      (List.range' 0 t.header.length).map
        (fun i => t.getAt c ((t.header.take i).sum) (t.header.getD i 0)) := hrun
  constructor
  · rw [hall, List.length_map, List.length_range']
  · intro i hi
    rw [get_eq_map_getAt c t i hi]
    congr 1
    rw [hall, getD_map_range' _ _ _ 0 i hi]
    simp

/-- C6 witness: on a concrete two-record table, position 0 of the scan
matches get(0). -/
theorem c6_iter_matches_get_witness :
    (Table.mk [3, 1] 4 [2, 2, 2, 0]).get natCodec 0 =
      Except.map some
        ((iterAll natCodec (Table.mk [3, 1] 4 [2, 2, 2, 0])).getD 0
          (Except.error Err.io)) :=
  (c6_iter_matches_get natCodec (Table.mk [3, 1] 4 [2, 2, 2, 0])).2 0 (by decide)

/-- C7: open decodes a pre-existing index file as the header and fails with
the decode error when that decoding fails; a fresh index file yields an
empty header; in both cases the cached total is the sum of the loaded
header. -/
theorem c7_open_semantics (dec : List Nat → Option (List Nat))
    (existed : Bool) (idx dat : List Nat) :
    (existed = true → dec idx = none →
      openTable dec existed idx dat = Except.error Err.msgPackDec) ∧
    (∀ h : List Nat, existed = true → dec idx = some h →
      openTable dec existed idx dat = Except.ok (Table.mk h h.sum dat)) ∧
    (existed = false →
      openTable dec existed idx dat = Except.ok (Table.mk [] ([] : List Nat).sum dat)) := by
  refine ⟨?_, ?_, ?_⟩
  · intro he hd
    simp [openTable, he, hd]
  · intro h he hd
    simp [openTable, he, hd]
  · intro he
    simp [openTable, he]

/-- C7 witness: opening over a pre-existing index that decodes to `[5]`
yields that header with cached total 5. -/
theorem c7_open_semantics_witness :
    openTable (fun _ => some [5]) true [1] [9] =
      Except.ok (Table.mk [5] 5 [9]) :=
  (c7_open_semantics (fun _ => some [5]) true [1] [9]).2.1 [5] rfl rfl

/-- C8: get at any position at or past the record count returns `Ok(None)`,
never an error (the embedding's get is read-only, so the state is
untouched). -/
theorem c8_get_out_of_range {V : Type} (c : Codec V) (t : Table) (pos : Nat)
    (h : t.count ≤ pos) : t.get c pos = Except.ok none := by
  have h' : t.header.length ≤ pos := h
  simp [Table.get, h']

/-- C8 witness: get(len()) on a one-record table returns `Ok(None)`. -/
theorem c8_get_out_of_range_witness :
    (Table.mk [3] 3 [1, 1, 1]).get natCodec 1 = Except.ok none :=
  c8_get_out_of_range natCodec (Table.mk [3] 3 [1, 1, 1]) 1 (by decide)

/-- C9: pop on a table with empty header returns `Ok(None)` and the state —
header, cached length and data file — is returned unchanged. -/
theorem c9_pop_empty {V : Type} (c : Codec V) (t : Table) (h : t.header = []) :
    t.pop c = some (Except.ok none, t) := by
  simp [Table.pop, h]

/-- C9 witness: pop on a freshly opened, never-pushed-to table returns
`Ok(None)` with the state unchanged. -/
theorem c9_pop_empty_witness :
    (Table.mk [] 0 []).pop natCodec =
      some (Except.ok none, Table.mk [] 0 []) :=
  c9_pop_empty natCodec (Table.mk [] 0 []) rfl

/-- C10: when encoding fails, push returns the encode error and the table —
header, cached length and data file — is returned unchanged. -/
theorem c10_push_encode_error {V : Type} (c : Codec V) (t : Table) (v : V)
    (h : c.encode v = none) : t.push c v = (Except.error Err.msgPackEnc, t) := by
  simp [Table.push, h]

/-- C10 witness: push with an always-failing encoder returns the encode
error and leaves a concrete table unchanged. -/
theorem c10_push_encode_error_witness :
    (Table.mk [3] 3 [0, 0, 0]).push failCodec 7 =
      (Except.error Err.msgPackEnc, Table.mk [3] 3 [0, 0, 0]) :=
  c10_push_encode_error failCodec (Table.mk [3] 3 [0, 0, 0]) 7 rfl

end TableSpec
